import Mathlib

/-!
# Verification of the ORB-SLAM point-cloud conversion utilities

This file is a shallow embedding of `src/point_cloud.py` (functions
`save_pointcloud_from_ORB_SLAM`, `save_trajectory_from_ORB_SLAM` and the
parsing stage of `plot_3d_point_cloud`), together with proofs about the
embedded definitions.

Modelling conventions:

* A text file is modelled as a `List String` of its lines, without the
  trailing newline characters (the newline is the line separator; every
  file written by `np.savetxt` ends each line, including the last, with a
  newline, so a written file corresponds exactly to its list of lines).
* Python `float` values are idealised as exact rationals, plus the
  special values `nan`, `inf` and `-inf` (type `PFloat`).  `%f`
  formatting is modelled as exact fixed-point rendering with 6 decimal
  places of the rational value (rounding half away from zero); binary
  floating-point rounding is not modelled.
* Functions that may raise a Python exception return `Option`, with
  `none` standing for "raises".
* `np.genfromtxt` / `np.loadtxt` results are modelled by `NDArr`, which
  records the dimensionality that numpy produces (0-d / 1-d / 2-d),
  because the code's column indexing `coords[:, 0]` is only valid on a
  2-d array.
-/

/-! ## Characters and string utilities -/

/-- The whitespace characters of Python's `str.split()` / `str.strip()`:
space, tab, newline, carriage return, vertical tab, form feed. -/
def isWSC (c : Char) : Bool :=
  c == (' ') || c == ('\t') || c == ('\n') || c == ('\r') ||
  c == Char.ofNat 11 || c == Char.ofNat 12

/-- The strip set `" \r\n"` used by `np.genfromtxt`'s line splitter. -/
def isGWS (c : Char) : Bool :=
  c == (' ') || c == ('\r') || c == ('\n')

/-- Everything before the first `'#'`: models `line.split('#')[0]`, the
comment handling of `np.genfromtxt` and `np.loadtxt` (default
`comments='#'`). -/
def stripCommentL (l : List Char) : List Char :=
  l.takeWhile (fun c => c != ('#'))

/-- Remove trailing characters satisfying `p`. -/
def dropTrail (p : Char → Bool) (l : List Char) : List Char :=
  (l.reverse.dropWhile p).reverse

/-- Remove leading and trailing characters satisfying `p`
(Python `str.strip`). -/
def stripBy (p : Char → Bool) (l : List Char) : List Char :=
  dropTrail p (l.dropWhile p)

/-- Python `str.strip()` on a string. -/
def pyStrip (s : String) : String :=
  String.mk (stripBy isWSC s.data)

/-- `str.strip(" \r\n")` on a string, as used inside `np.genfromtxt`. -/
def gStrip (s : String) : String :=
  String.mk (stripBy isGWS s.data)

/-- `line.split('#')[0]` on a string. -/
def stripCommentS (s : String) : String :=
  String.mk (stripCommentL s.data)

/-- Split a character list at every character satisfying `p`, keeping
empty pieces (the behaviour of Python's `str.split(sep)` for a
one-character separator, with `p` deciding the separator). -/
def splitP (p : Char → Bool) : List Char → List (List Char)
  | [] => [[]]
  | c :: rest =>
    if p c then [] :: splitP p rest
    else
      match splitP p rest with
      | [] => [[c]]
      | r :: rs => (c :: r) :: rs

/-- Python `line.split(" ")`: split at every single space, keeping empty
fields (as used by `save_trajectory_from_ORB_SLAM`). -/
def splitSpStr (s : String) : List String :=
  (splitP (fun c => c == (' ')) s.data).map String.mk

/-- Python `str.split()` with no argument: split at whitespace runs,
discarding empty fields (the tokenizer of `np.loadtxt` with
`delimiter=None`). -/
def wsSplitL (l : List Char) : List (List Char) :=
  (splitP isWSC l).filter (fun r => r ≠ [])

/-- `wsSplitL` on a string. -/
def wsSplitStr (s : String) : List String :=
  (wsSplitL s.data).map String.mk

/-- Python `line.split(", ")`: split at every (non-overlapping,
left-to-right) occurrence of the two-character separator `", "`, the
delimiter passed to `np.genfromtxt`. -/
def splitSepL : List Char → List (List Char)
  | [] => [[]]
  | (',') :: (' ') :: rest => [] :: splitSepL rest
  | c :: rest =>
    match splitSepL rest with
    | [] => [[c]]
    | r :: rs => (c :: r) :: rs

/-- `splitSepL` on a string. -/
def splitCommaSpace (s : String) : List String :=
  (splitSepL s.data).map String.mk

/-- Join strings with single spaces.  Mirrors how a `np.savetxt` row
format such as `'%f %f %f'` concatenates its fields. -/
def joinSp : List String → String
  | [] => ("")
  | [t] => t
  | t :: ts => t ++ (" ") ++ joinSp ts

/-! ## Decimal digits -/

/-- The character of a decimal digit. -/
def digitChar (d : Nat) : Char := Char.ofNat (48 + d)

/-- Decimal digit characters of `n`, most significant first; `fuel`
bounds the recursion (callers pass `fuel = n`, which suffices). -/
def natDigitsAux : Nat → Nat → List Char
  | 0, _ => []
  | fuel + 1, n =>
    if n = 0 then [] else natDigitsAux fuel (n / 10) ++ [digitChar (n % 10)]

/-- Decimal representation of a natural number (as produced by `%d` /
the integer part of `%f`). -/
def natStr (n : Nat) : List Char :=
  if n = 0 then [('0')] else natDigitsAux n n

/-- `str(n)` / `'%d' % n` as a string. -/
def natReprS (n : Nat) : String :=
  String.mk (natStr n)

/-- Numeric value of a list of decimal digit characters. -/
def digitsValN (l : List Char) : Nat :=
  l.foldl (fun a c => a * 10 + (c.toNat - 48)) 0

/-- Exactly six digit characters: the fractional part `b` (with
`b < 10^6`) of a `%f` rendering, zero padded. -/
def frac6 (b : Nat) : List Char :=
  [digitChar (b / 100000 % 10), digitChar (b / 10000 % 10),
   digitChar (b / 1000 % 10), digitChar (b / 100 % 10),
   digitChar (b / 10 % 10), digitChar (b % 10)]

/-! ## The float model -/

/-- A Python float, idealised: an exact rational or one of the special
values produced by `float('nan')` / `float('inf')` / `float('-inf')`. -/
inductive PFloat where
  | nan : PFloat
  | inf : PFloat
  | ninf : PFloat
  | val : Rat → PFloat
deriving DecidableEq, Repr

/-- `|q| * 10^6` rounded to the nearest integer (half away from zero):
the number of millionths printed by `'%f' % q`.  Written with integer
arithmetic on numerator and denominator:
`⌊|q| * 10^6 + 1/2⌋ = (2 * |num| * 10^6 + den) / (2 * den)`. -/
def rnd6N (q : Rat) : Nat :=
  (2 * q.num.natAbs * 1000000 + q.den) / (2 * q.den)

/-- The rational value that `'%f' % q` displays: `q` at 6 decimal
places. -/
def rnd6Q (q : Rat) : Rat :=
  if q < 0 then -(mkRat (rnd6N q : Int) 1000000) else mkRat (rnd6N q : Int) 1000000

/-- A `PFloat` at the written precision of 6 decimal places. -/
def round6 : PFloat → PFloat
  | .val q => .val (rnd6Q q)
  | v => v

/-- `round6` on a coordinate triple. -/
def round6T (t : PFloat × PFloat × PFloat) : PFloat × PFloat × PFloat :=
  (round6 t.1, round6 t.2.1, round6 t.2.2)

/-- The characters written by `'%f' % q`: optional minus sign, decimal
integer part, `'.'`, six fractional digits. -/
def fmtQ6 (q : Rat) : List Char :=
  (if q < 0 then [('-')] else []) ++
    natStr (rnd6N q / 1000000) ++ ('.') :: frac6 (rnd6N q % 1000000)

/-- `'%f' % v` for a full `PFloat` (Python prints `nan`, `inf`,
`-inf` for the special values). -/
def fmtF : PFloat → String
  | .nan => ("nan")
  | .inf => ("inf")
  | .ninf => ("-inf")
  | .val q => String.mk (fmtQ6 q)

/-! ## Parsing floats: a model of Python's `float(str)` -/

/-- Exponent tail of a float literal: optional sign then digits,
nothing after. -/
def parseExpTail (l : List Char) : Option Int :=
  let es : Int := if l.head? = some ('-') then -1 else 1
  let l2 := if l.head? = some ('-') ∨ l.head? = some ('+') then l.tail else l
  let ds := l2.takeWhile Char.isDigit
  if ds = [] ∨ l2.dropWhile Char.isDigit ≠ [] then none
  else some (es * (digitsValN ds : Int))

/-- Negate when the literal had a leading minus sign. -/
def applySign (neg : Bool) (m : Rat) : Rat :=
  if neg then -m else m

/-- Scale by `10 ^ e` for the exponent part of a literal. -/
def applyExp (m : Rat) (e : Int) : Rat :=
  if 0 ≤ e then mkRat (m.num * ((10 ^ e.toNat : Nat) : Int)) m.den
  else mkRat m.num (m.den * (10 ^ (-e).toNat : Nat))

/-- The sign of a float literal: a leading `-` marks the value negative,
a leading `+` is skipped. -/
def parseSign (l : List Char) : Bool × List Char :=
  if l.head? = some ('-') then (true, l.tail)
  else if l.head? = some ('+') then (false, l.tail)
  else (false, l)

/-- The unsigned part of a decimal float literal:
`(digits [. digits] | . digits | digits) [(e|E) [sign] digits]`;
the denoted rational is built with `mkRat` from the digit values. -/
def parseBody (l1 : List Char) : Option Rat :=
  let ip := l1.takeWhile Char.isDigit
  let r1 := l1.dropWhile Char.isDigit
  if r1.head? = some ('.') then
    let fp := r1.tail.takeWhile Char.isDigit
    let r2 := r1.tail.dropWhile Char.isDigit
    if ip = [] ∧ fp = [] then none
    else
      let m : Rat := mkRat
        ((digitsValN ip * 10 ^ fp.length + digitsValN fp : Nat) : Int)
        (10 ^ fp.length)
      if r2 = [] then some m
      else if r2.head? = some ('e') ∨ r2.head? = some ('E') then
        (parseExpTail r2.tail).map (applyExp m)
      else none
  else if r1 = [] then
    if ip = [] then none else some (mkRat ((digitsValN ip : Nat) : Int) 1)
  else if r1.head? = some ('e') ∨ r1.head? = some ('E') then
    if ip = [] then none
    else
      (parseExpTail r1.tail).map (applyExp (mkRat ((digitsValN ip : Nat) : Int) 1))
  else none

/-- Parse a (already stripped) decimal float literal:
`[sign] (digits [. digits] | . digits) [(e|E) [sign] digits]`.
Returns the exact rational value.  (Python's `float` additionally
accepts underscores between digits; those never occur in this
program's data and are not modelled.) -/
def parseDec (l : List Char) : Option Rat :=
  (parseBody (parseSign l).2).map (applySign (parseSign l).1)

/-- Lower-case an ASCII letter. -/
def asciiLower (c : Char) : Char :=
  if ('A') ≤ c ∧ c ≤ ('Z') then Char.ofNat (c.toNat + 32) else c

/-- Python's `float(s)`: strip whitespace, then either a decimal
literal or (case-insensitively) one of the special spellings
`nan` / `inf` / `infinity` with optional sign.  `none` models a raised
`ValueError`. -/
def pyFloat (s : String) : Option PFloat :=
  let t := stripBy isWSC s.data
  match parseDec t with
  | some q => some (.val q)
  | none =>
    let u := t.map asciiLower
    if u = ("nan").data ∨ u = ("+nan").data ∨ u = ("-nan").data then
      some .nan
    else if u = ("inf").data ∨ u = ("+inf").data ∨ u = ("infinity").data ∨
        u = ("+infinity").data then
      some .inf
    else if u = ("-inf").data ∨ u = ("-infinity").data then
      some .ninf
    else none

/-! ## Option-valued helpers (Python loops that may raise) -/

/-- Map a fallible function over a list, failing if any element fails:
models a Python loop whose body may raise. -/
def omapM (f : α → Option β) : List α → Option (List β)
  | [] => some []
  | a :: l => do
    let b ← f a
    let bs ← omapM f l
    return b :: bs

/-- Zip three lists (used for `np.column_stack((x, y, z))` rows). -/
def zipW3 (f : α → β → γ → δ) : List α → List β → List γ → List δ
  | a :: as_, b :: bs, c :: cs => f a b c :: zipW3 f as_ bs cs
  | _, _, _ => []

/-- Zip four lists (used for `np.column_stack((x, y, z, r, g, b))`
rows, with the three colour channels sharing an index type). -/
def zipW4 (f : α → β → β → β → δ) : List α → List β → List β → List β → List δ
  | a :: as_, b :: bs, c :: cs, d :: ds => f a b c d :: zipW4 f as_ bs cs ds
  | _, _, _, _ => []

/-! ## numpy text-array model -/

/-- The result of `np.genfromtxt` / `np.loadtxt`: numpy squeezes a
single data row to a 1-d array and a single scalar to a 0-d array;
two or more rows give a 2-d array. -/
inductive NDArr where
  | d0 : PFloat → NDArr
  | d1 : List PFloat → NDArr
  | d2 : List (List PFloat) → NDArr
deriving DecidableEq, Repr

/-- Shape the parsed rows the way numpy does: no rows gives the empty
1-d array (shape `(0,)`), one row of one value a 0-d array, one row a
1-d array, and two or more rows a 2-d array. -/
def mkNDArr : List (List PFloat) → NDArr
  | [] => .d1 []
  | [[v]] => .d0 v
  | [r] => .d1 r
  | a :: b :: t => .d2 (a :: b :: t)

/-- `arr[:, j]`: valid only on a 2-d array; extracting column `j`
requires every row to have more than `j` entries (otherwise numpy
raises `IndexError`). -/
def npcol (arr : NDArr) (j : Nat) : Option (List PFloat) :=
  match arr with
  | .d2 rows => omapM (fun r => r.get? j) rows
  | _ => none

/-- The field converter of `np.genfromtxt` with default `dtype=float`:
an unparsable field becomes `nan` (genfromtxt does not raise on bad
values). -/
def gconv (s : String) : PFloat :=
  (pyFloat s).getD .nan

/-- The data rows seen by
`np.genfromtxt(input, delimiter=", ", skip_header=1)`: skip one header
line, cut comments, strip `" \r\n"`, drop blank lines, split the rest
at `", "`. -/
def gFieldRows (input : List String) : List (List String) :=
  (((input.drop 1).map (fun l => gStrip (stripCommentS l))).filter
    (fun l => l ≠ (""))).map splitCommaSpace

/-- Check that every row has the first row's field count (numpy raises
`ValueError` otherwise) and shape the result. -/
def uniformShape (rows : List (List PFloat)) : Option NDArr :=
  match rows with
  | [] => some (mkNDArr [])
  | r :: rest =>
    if rest.all (fun r2 => r2.length = r.length) then
      some (mkNDArr (r :: rest))
    else none

/-- `np.genfromtxt(input, delimiter=", ", skip_header=1)`.  Rows whose
field count differs from the first row's raise `ValueError` (`none`);
otherwise the rows are converted and shaped. -/
def genfromtxt (input : List String) : Option NDArr :=
  uniformShape ((gFieldRows input).map (fun r => r.map gconv))

/-- The token rows seen by `np.loadtxt(lines)`: cut comments, tokenize
at whitespace, drop lines with no tokens. -/
def lTokenRows (body : List String) : List (List String) :=
  (body.map (fun l => wsSplitStr (stripCommentS l))).filter (fun r => r ≠ [])

/-- `np.loadtxt(lines, dtype=np.float32)` (numeric values idealised as
rationals): every token must parse as a float and all rows must have
the first row's length, else `ValueError` (`none`); then the rows are
shaped as numpy does. -/
def loadtxt (body : List String) : Option NDArr :=
  (omapM (fun r => omapM pyFloat r) (lTokenRows body)).bind uniformShape

/-! ## The three program functions -/

/-- The PLY header written by `save_pointcloud_from_ORB_SLAM` (the
`ply_header` string, split at its embedded newlines; `np.savetxt`
writes it followed by a newline before the body). -/
def plyHeaderPC (n : Nat) : List String :=
  [("ply"), ("format ascii 1.0"), ("element vertex ") ++ natReprS n,
   ("property float x"), ("property float y"), ("property float z"),
   ("end_header")]

/-- One body line of the point-cloud PLY: `'%f %f %f' % (x, y, z)`. -/
def pcBodyLine (a b c : PFloat) : String :=
  joinSp [fmtF a, fmtF b, fmtF c]

/-- `save_pointcloud_from_ORB_SLAM(input_file, output_file)` from
`src/point_cloud.py`: parse with `np.genfromtxt`, take columns 0, 1, 2
as x, y, z (raising if the array is not 2-d or has fewer than 3
columns), and write header plus one formatted line per point.  The
result is the written file's lines; `none` models an exception (no
file written). -/
def save_pointcloud_from_ORB_SLAM (input : List String) : Option (List String) := do
  let coords ← genfromtxt input
  let x ← npcol coords 0
  let y ← npcol coords 1
  let z ← npcol coords 2
  return plyHeaderPC x.length ++ zipW3 pcBodyLine x y z

/-- The parse stage of `save_pointcloud_from_ORB_SLAM`: the list of
(x, y, z) points the converter extracts from the input. -/
def pcPoints (input : List String) : Option (List (PFloat × PFloat × PFloat)) := do
  let coords ← genfromtxt input
  let x ← npcol coords 0
  let y ← npcol coords 1
  let z ← npcol coords 2
  return zipW3 (fun a b c => (a, b, c)) x y z

/-- One loop iteration of `save_trajectory_from_ORB_SLAM`:
`cols = line.strip().split(" ")` then
`float(cols[4]), float(cols[8]), float(cols[12])`; a missing index
models `IndexError`, a failed parse `ValueError`. -/
def trajPointOfLine (line : String) : Option (PFloat × PFloat × PFloat) := do
  let cols := splitSpStr (pyStrip line)
  let x ← (cols.get? 4).bind pyFloat
  let y ← (cols.get? 8).bind pyFloat
  let z ← (cols.get? 12).bind pyFloat
  return (x, y, z)

/-- The ten lines of the trajectory PLY header with vertex count `n`. -/
def trajHeaderLines (n : Nat) : List String :=
  [("ply"), ("format ascii 1.0"), ("element vertex ") ++ natReprS n,
   ("property float x"), ("property float y"), ("property float z"),
   ("property uchar red"), ("property uchar green"),
   ("property uchar blue"), ("end_header")]

/-- The trajectory `ply_header` applied to the array shape, modelling
Python's `'... element vertex %d ...' % x.shape`: `%`-formatting a
string with one `%d` against a tuple succeeds exactly when the tuple
has one element, substituting that element (a longer or empty tuple
raises `TypeError`).  `x.shape` of the 1-d array `x` is `(len(x),)`. -/
def formatTrajHeader : List Nat → Option (List String)
  | [n] => some (trajHeaderLines n)
  | _ => none

/-- One body line of the trajectory PLY:
`'%f %f %f %d %d %d' % (x, y, z, r, g, b)` (the colour channels are
the floats `144.0` etc., printed by `%d` as integers). -/
def trajBodyLine (p : PFloat × PFloat × PFloat) (r g b : Nat) : String :=
  joinSp [fmtF p.1, fmtF p.2.1, fmtF p.2.2, natReprS r, natReprS g, natReprS b]

/-- `save_trajectory_from_ORB_SLAM(input_file, output_file)` from
`src/point_cloud.py`: per line take `float(cols[4])`, `float(cols[8])`,
`float(cols[12])`; build the constant colour arrays
`r = ones_like(x)*144`, `g = ones_like(x)*238`, `b = ones_like(x)*144`;
format the header against `x.shape`; write header plus one formatted
line per point. -/
def save_trajectory_from_ORB_SLAM (input : List String) : Option (List String) := do
  let pts ← omapM trajPointOfLine input
  let rs := pts.map (fun _ => (144 : Nat))
  let gs := pts.map (fun _ => (238 : Nat))
  let bs := pts.map (fun _ => (144 : Nat))
  let hdr ← formatTrajHeader [pts.length]
  return hdr ++ zipW4 trajBodyLine pts rs gs bs

/-- The header scan of `plot_3d_point_cloud`: `header_end` starts at 0
and becomes `i + 1` for the first line `i` whose stripped content is
`end_header` (staying 0 when there is none). -/
def headerEndAux : Nat → List String → Nat
  | _, [] => 0
  | i, l :: rest =>
    if pyStrip l = ("end_header") then i + 1 else headerEndAux (i + 1) rest

/-- `header_end` as computed by `plot_3d_point_cloud`. -/
def headerEnd (lines : List String) : Nat :=
  headerEndAux 0 lines

/-- The body-parsing part of `plot_3d_point_cloud`:
`points = np.loadtxt(body)` then
`x, y, z = points[:, 0], points[:, 1], points[:, 2]`, returning the
(x, y, z) triples. -/
def viewerBodyParse (body : List String) : Option (List (PFloat × PFloat × PFloat)) := do
  let points ← loadtxt body
  let x ← npcol points 0
  let y ← npcol points 1
  let z ← npcol points 2
  return zipW3 (fun a b c => (a, b, c)) x y z

/-- The parsing stage of `plot_3d_point_cloud(ply_file)` from
`src/point_cloud.py`, up to and including coordinate extraction: scan
for the header end, then parse everything after it (`lines[header_end:]`)
as the vertex body.  Returns the recovered (x, y, z) triples; `none`
models an exception before the scatter plot is drawn.  (The rendering
itself is out of scope.) -/
def plot_3d_point_cloud (lines : List String) : Option (List (PFloat × PFloat × PFloat)) :=
  viewerBodyParse (lines.drop (headerEnd lines))

/-- Two consecutive runs of the point-cloud converter with the same
input and output path: `np.savetxt` opens the output in write mode, so
the second run's bytes replace the first's. -/
def runPointcloudConverterTwice (input : List String) : Option (List String) := do
  let _first ← save_pointcloud_from_ORB_SLAM input
  save_pointcloud_from_ORB_SLAM input

/-! ## Helper lemmas: strings and membership -/

theorem strmk_data (s : String) : String.mk s.data = s := by
  cases s; rfl

theorem getLast?_mem_of_eq {l : List α} {c : α} (h : l.getLast? = some c) :
    c ∈ l := by
  induction l with
  | nil => simp at h
  | cons a t ih =>
    rw [List.getLast?_cons] at h
    cases ht : t.getLast? with
    | none =>
      rw [ht] at h
      simp at h
      simp [h]
    | some b =>
      rw [ht] at h
      simp at h
      exact List.mem_cons_of_mem a (ih (by rw [ht, h]))

theorem head?_append_left {l1 l2 : List α} {c : α} (h : l1.head? = some c) :
    (l1 ++ l2).head? = some c := by
  simp [List.head?_append, h]

theorem getLast?_append_right {l1 l2 : List α} {c : α} (h : l2.getLast? = some c) :
    (l1 ++ l2).getLast? = some c := by
  simp [List.getLast?_append, h]

theorem elementVertex_ne_endHeader (s : String) :
    (("element vertex ") ++ s) ≠ ("end_header") := by
  intro h
  have h2 := congrArg String.length h
  rw [String.length_append] at h2
  have e1 : ("element vertex ").length = 15 := by decide
  have e2 : ("end_header").length = 10 := by decide
  omega

/-! ## Helper lemmas: takeWhile, dropWhile, strip -/

theorem takeWhile_all {p : α → Bool} {l : List α} (h : ∀ c ∈ l, p c = true) :
    l.takeWhile p = l := by
  induction l with
  | nil => rfl
  | cons a t ih =>
    rw [List.takeWhile_cons, h a (List.mem_cons_self a t)]
    simp [ih fun c hc => h c (List.mem_cons_of_mem a hc)]

theorem dropWhile_all {p : α → Bool} {l : List α} (h : ∀ c ∈ l, p c = true) :
    l.dropWhile p = [] := by
  induction l with
  | nil => rfl
  | cons a t ih =>
    rw [List.dropWhile_cons, h a (List.mem_cons_self a t)]
    simp [ih fun c hc => h c (List.mem_cons_of_mem a hc)]

theorem takeWhile_append_sep {p : α → Bool} {xs : List α} {y : α} (ys : List α)
    (hx : ∀ c ∈ xs, p c = true) (hy : p y = false) :
    (xs ++ y :: ys).takeWhile p = xs := by
  induction xs with
  | nil => simp [List.takeWhile_cons, hy]
  | cons a t ih =>
    rw [List.cons_append, List.takeWhile_cons, hx a (List.mem_cons_self a t)]
    simp [ih fun c hc => hx c (List.mem_cons_of_mem a hc)]

theorem dropWhile_append_sep {p : α → Bool} {xs : List α} {y : α} (ys : List α)
    (hx : ∀ c ∈ xs, p c = true) (hy : p y = false) :
    (xs ++ y :: ys).dropWhile p = y :: ys := by
  induction xs with
  | nil => simp [List.dropWhile_cons, hy]
  | cons a t ih =>
    rw [List.cons_append, List.dropWhile_cons, hx a (List.mem_cons_self a t)]
    simp [ih fun c hc => hx c (List.mem_cons_of_mem a hc)]

theorem dropWhile_all_false {p : α → Bool} {l : List α}
    (h : ∀ c ∈ l, p c = false) : l.dropWhile p = l := by
  cases l with
  | nil => rfl
  | cons a t => simp [List.dropWhile_cons, h a (List.mem_cons_self a t)]

theorem stripBy_eq_self {p : Char → Bool} {l : List Char}
    (h : ∀ c ∈ l, p c = false) : stripBy p l = l := by
  unfold stripBy dropTrail
  rw [dropWhile_all_false h]
  rw [dropWhile_all_false (by intro c hc; exact h c (List.mem_reverse.mp hc))]
  exact List.reverse_reverse l

theorem stripBy_eq_self_of_ends {p : Char → Bool} {l : List Char}
    (h1 : ∀ c, l.head? = some c → p c = false)
    (h2 : ∀ c, l.getLast? = some c → p c = false) : stripBy p l = l := by
  cases l with
  | nil => rfl
  | cons a t =>
    unfold stripBy dropTrail
    have hdw : (a :: t).dropWhile p = a :: t := by
      rw [List.dropWhile_cons, h1 a rfl]
      simp
    rw [hdw]
    cases hr : (a :: t).reverse with
    | nil => simp at hr
    | cons b rt =>
      have hb : (a :: t).getLast? = some b := by
        rw [← List.head?_reverse, hr]
        rfl
      have hdw2 : List.dropWhile p (b :: rt) = b :: rt := by
        rw [List.dropWhile_cons, h2 b hb]
        simp
      rw [hdw2, ← hr, List.reverse_reverse]

/-! ## Helper lemmas: splitP and joinSp -/

theorem splitP_no {p : Char → Bool} {xs : List Char}
    (h : ∀ c ∈ xs, p c = false) : splitP p xs = [xs] := by
  induction xs with
  | nil => rfl
  | cons a t ih =>
    rw [splitP, h a (List.mem_cons_self a t)]
    simp only [Bool.false_eq_true, if_false]
    rw [ih fun c hc => h c (List.mem_cons_of_mem a hc)]

theorem splitP_sep {p : Char → Bool} {xs : List Char} {y : Char} (ys : List Char)
    (hx : ∀ c ∈ xs, p c = false) (hy : p y = true) :
    splitP p (xs ++ y :: ys) = xs :: splitP p ys := by
  induction xs with
  | nil => simp [splitP, hy]
  | cons a t ih =>
    rw [List.cons_append, splitP, hx a (List.mem_cons_self a t)]
    simp only [Bool.false_eq_true, if_false]
    rw [ih fun c hc => hx c (List.mem_cons_of_mem a hc)]

theorem joinSp_data_cons (t u : String) (ts : List String) :
    (joinSp (t :: u :: ts)).data = t.data ++ (' ') :: (joinSp (u :: ts)).data := by
  rw [show joinSp (t :: u :: ts) = t ++ (" ") ++ joinSp (u :: ts) from rfl,
    String.data_append, String.data_append, List.append_assoc]
  have hsp : (" ").data = [(' ')] := by decide
  rw [hsp]
  rfl

theorem joinSp_chars (ts : List String) (c : Char) (hc : c ∈ (joinSp ts).data) :
    c = (' ') ∨ ∃ t ∈ ts, c ∈ t.data := by
  induction ts with
  | nil => simp [joinSp] at hc
  | cons t rest ih =>
    cases rest with
    | nil =>
      right
      exact ⟨t, List.mem_cons_self t [], hc⟩
    | cons u ts' =>
      rw [joinSp_data_cons] at hc
      rcases List.mem_append.mp hc with h | h
      · exact Or.inr ⟨t, List.mem_cons_self t _, h⟩
      · rcases List.mem_cons.mp h with h | h
        · exact Or.inl h
        · rcases ih h with h | ⟨v, hv, hcv⟩
          · exact Or.inl h
          · exact Or.inr ⟨v, List.mem_cons_of_mem t hv, hcv⟩

theorem splitP_joinSp {p : Char → Bool} (hp : p (' ') = true) :
    ∀ ts : List String, ts ≠ [] →
      (∀ t ∈ ts, ∀ c ∈ (t : String).data, p c = false) →
      splitP p (joinSp ts).data = ts.map String.data
  | [], h, _ => absurd rfl h
  | [t], _, htok => by
    rw [joinSp]
    rw [splitP_no (htok t (List.mem_cons_self t []))]
    rfl
  | t :: u :: ts, _, htok => by
    rw [joinSp_data_cons]
    rw [splitP_sep _ (htok t (List.mem_cons_self t _)) hp]
    rw [splitP_joinSp hp (u :: ts) (by simp)
      (fun v hv c hc => htok v (List.mem_cons_of_mem t hv) c hc)]
    rfl

theorem map_mk_map_data (ts : List String) :
    (ts.map String.data).map String.mk = ts := by
  rw [List.map_map]
  have : (String.mk ∘ String.data) = id := by
    funext s
    exact strmk_data s
  rw [this, List.map_id]

/-- `line.split(" ")` recovers single-space-joined tokens that contain
no space character. -/
theorem splitSpStr_joinSp (ts : List String) (hne : ts ≠ [])
    (htok : ∀ t ∈ ts, ∀ c ∈ (t : String).data, (c == (' ')) = false) :
    splitSpStr (joinSp ts) = ts := by
  rw [splitSpStr, splitP_joinSp (by decide) ts hne htok, map_mk_map_data]

/-- `str.split()` recovers space-joined tokens that are nonempty and
contain no whitespace. -/
theorem wsSplitStr_joinSp (ts : List String) (hne : ts ≠ [])
    (htok : ∀ t ∈ ts, t.data ≠ [] ∧ ∀ c ∈ (t : String).data, isWSC c = false) :
    wsSplitStr (joinSp ts) = ts := by
  rw [wsSplitStr, wsSplitL, splitP_joinSp (by decide) ts hne
    (fun t ht c hc => (htok t ht).2 c hc)]
  rw [List.filter_eq_self.mpr ?ne, map_mk_map_data]
  case ne =>
    intro r hr
    rcases List.mem_map.mp hr with ⟨t, ht, rfl⟩
    simpa using (htok t ht).1

/-! ## Helper lemmas: omapM and zips -/

theorem omapM_some_length {f : α → Option β} :
    ∀ {l : List α} {l2 : List β}, omapM f l = some l2 → l2.length = l.length
  | [], l2, h => by
    simp [omapM] at h
    simp [← h]
  | a :: t, l2, h => by
    rw [omapM] at h
    cases hf : f a with
    | none => rw [hf] at h; simp at h
    | some b =>
      rw [hf] at h
      cases ht : omapM f t with
      | none => rw [ht] at h; simp at h
      | some bs =>
        rw [ht] at h
        simp at h
        have := omapM_some_length ht
        simp [← h, this]

theorem omapM_congr_some {f : α → Option β} {g : α → β} :
    ∀ {l : List α}, (∀ a ∈ l, f a = some (g a)) → omapM f l = some (l.map g)
  | [], _ => rfl
  | a :: t, h => by
    rw [omapM, h a (List.mem_cons_self a t),
      omapM_congr_some fun x hx => h x (List.mem_cons_of_mem a hx)]
    rfl

theorem omapM_none {f : α → Option β} :
    ∀ {l : List α} {a : α}, a ∈ l → f a = none → omapM f l = none
  | [], a, ha, _ => absurd ha (List.not_mem_nil a)
  | b :: t, a, ha, hf => by
    rw [omapM]
    rcases List.mem_cons.mp ha with rfl | ha
    · rw [hf]; rfl
    · cases hb : f b with
      | none => rfl
      | some v => rw [omapM_none ha hf]; rfl

theorem obind_const_none (o : Option α) :
    (o.bind fun _ => (none : Option β)) = none := by
  cases o <;> rfl

theorem zipW3_length {f : α → β → γ → δ} :
    ∀ {x : List α} {y : List β} {z : List γ},
      y.length = x.length → z.length = x.length →
      (zipW3 f x y z).length = x.length
  | [], y, z, _, _ => rfl
  | a :: t, [], z, hy, _ => by simp at hy
  | a :: t, b :: ty, [], _, hz => by simp at hz
  | a :: t, b :: ty, c :: tz, hy, hz => by
    rw [zipW3]
    simp only [List.length_cons] at hy hz ⊢
    rw [zipW3_length (by omega) (by omega)]

theorem zipW3_eq_map {f : α → β → γ → δ} :
    ∀ (x : List α) (y : List β) (z : List γ),
      zipW3 f x y z =
        (zipW3 (fun a b c => (a, b, c)) x y z).map fun t => f t.1 t.2.1 t.2.2
  | [], _, _ => rfl
  | _ :: _, [], _ => rfl
  | _ :: _, _ :: _, [] => rfl
  | a :: x, b :: y, c :: z => by
    rw [zipW3, zipW3, List.map_cons, zipW3_eq_map x y z]

theorem zipW3_maps (f : α → β → γ → δ) (g1 : ε → α) (g2 : ε → β) (g3 : ε → γ) :
    ∀ l : List ε,
      zipW3 f (l.map g1) (l.map g2) (l.map g3) =
        l.map fun a => f (g1 a) (g2 a) (g3 a)
  | [] => rfl
  | a :: t => by
    rw [List.map_cons, List.map_cons, List.map_cons, zipW3, List.map_cons,
      zipW3_maps f g1 g2 g3 t]

theorem zipW4_maps (f : α → β → β → β → δ) (c1 c2 c3 : α → β) :
    ∀ l : List α,
      zipW4 f l (l.map c1) (l.map c2) (l.map c3) =
        l.map fun a => f a (c1 a) (c2 a) (c3 a)
  | [] => rfl
  | a :: t => by
    rw [List.map_cons, List.map_cons, List.map_cons, zipW4, List.map_cons,
      zipW4_maps f c1 c2 c3 t]

/-! ## Helper lemmas: digits -/

theorem digitChar_toNat {d : Nat} (h : d < 10) : (digitChar d).toNat = 48 + d := by
  interval_cases d <;> decide

theorem digitChar_props {d : Nat} (h : d < 10) :
    Char.isDigit (digitChar d) = true ∧ isWSC (digitChar d) = false ∧
      ((digitChar d) != ('#')) = true ∧ digitChar d ≠ ('.') ∧
      digitChar d ≠ ('-') ∧ digitChar d ≠ ('+') ∧
      digitChar d ≠ ('e') ∧ digitChar d ≠ ('E') := by
  interval_cases d <;> exact (by decide)

theorem natDigitsAux_mem :
    ∀ {fuel n : Nat} {c : Char}, c ∈ natDigitsAux fuel n →
      ∃ d, d < 10 ∧ c = digitChar d
  | 0, n, c, h => by simp [natDigitsAux] at h
  | fuel + 1, n, c, h => by
    rw [natDigitsAux] at h
    by_cases hn : n = 0
    · rw [if_pos hn] at h; simp at h
    · rw [if_neg hn] at h
      rcases List.mem_append.mp h with h | h
      · exact natDigitsAux_mem h
      · rcases List.mem_singleton.mp h with rfl
        exact ⟨n % 10, Nat.mod_lt _ (by omega), rfl⟩

theorem natStr_mem {n : Nat} {c : Char} (h : c ∈ natStr n) :
    ∃ d, d < 10 ∧ c = digitChar d := by
  rw [natStr] at h
  by_cases hn : n = 0
  · rw [if_pos hn] at h
    rcases List.mem_singleton.mp h with rfl
    exact ⟨0, by omega, by decide⟩
  · rw [if_neg hn] at h
    exact natDigitsAux_mem h

theorem natStr_ne_nil (n : Nat) : natStr n ≠ [] := by
  rw [natStr]
  by_cases hn : n = 0
  · rw [if_pos hn]; simp
  · rw [if_neg hn]
    obtain ⟨m, rfl⟩ : ∃ m, n = m + 1 := ⟨n - 1, by omega⟩
    rw [natDigitsAux, if_neg hn]
    simp

theorem digitsValN_append_singleton (l : List Char) (c : Char) :
    digitsValN (l ++ [c]) = digitsValN l * 10 + (c.toNat - 48) := by
  rw [digitsValN, digitsValN, List.foldl_append]
  rfl

theorem natDigitsAux_val :
    ∀ {fuel n : Nat}, n ≤ fuel → digitsValN (natDigitsAux fuel n) = n
  | 0, n, h => by
    rw [natDigitsAux, show digitsValN [] = 0 from rfl]
    omega
  | fuel + 1, n, h => by
    rw [natDigitsAux]
    by_cases hn : n = 0
    · rw [if_pos hn, show digitsValN [] = 0 from rfl]
      omega
    · rw [if_neg hn, digitsValN_append_singleton]
      have hdiv : n / 10 ≤ fuel := by
        have := Nat.div_lt_self (by omega : 0 < n) (by omega : 1 < 10)
        omega
      rw [natDigitsAux_val hdiv, digitChar_toNat (Nat.mod_lt _ (by omega))]
      omega

theorem natStr_val (n : Nat) : digitsValN (natStr n) = n := by
  rw [natStr]
  by_cases hn : n = 0
  · rw [if_pos hn, hn]; rfl
  · rw [if_neg hn]
    exact natDigitsAux_val le_rfl

theorem frac6_len (b : Nat) : (frac6 b).length = 6 := rfl

theorem frac6_mem {b : Nat} {c : Char} (h : c ∈ frac6 b) :
    ∃ d, d < 10 ∧ c = digitChar d := by
  simp only [frac6, List.mem_cons, List.not_mem_nil, or_false] at h
  rcases h with rfl | rfl | rfl | rfl | rfl | rfl <;>
    exact ⟨_, Nat.mod_lt _ (by omega), rfl⟩

theorem frac6_val {b : Nat} (hb : b < 1000000) : digitsValN (frac6 b) = b := by
  have h1 := digitChar_toNat (Nat.mod_lt (b / 100000) (by omega : 0 < 10))
  have h2 := digitChar_toNat (Nat.mod_lt (b / 10000) (by omega : 0 < 10))
  have h3 := digitChar_toNat (Nat.mod_lt (b / 1000) (by omega : 0 < 10))
  have h4 := digitChar_toNat (Nat.mod_lt (b / 100) (by omega : 0 < 10))
  have h5 := digitChar_toNat (Nat.mod_lt (b / 10) (by omega : 0 < 10))
  have h6 := digitChar_toNat (Nat.mod_lt b (by omega : 0 < 10))
  rw [frac6, digitsValN]
  simp only [List.foldl_cons, List.foldl_nil]
  rw [h1, h2, h3, h4, h5, h6]
  omega

/-! ## Helper lemmas: formatting and reparsing floats -/

theorem fmtQ6_char_ok {q : Rat} {c : Char} (h : c ∈ fmtQ6 q) :
    isWSC c = false ∧ (c != ('#')) = true := by
  rw [fmtQ6] at h
  rcases List.mem_append.mp h with h | h
  · rcases List.mem_append.mp h with h | h
    · by_cases hq : q < 0
      · rw [if_pos hq] at h
        rcases List.mem_singleton.mp h with rfl
        exact ⟨by decide, by decide⟩
      · rw [if_neg hq] at h
        simp at h
    · rcases natStr_mem h with ⟨d, hd, rfl⟩
      rcases digitChar_props hd with ⟨_, h2, h3, _⟩
      exact ⟨h2, h3⟩
  · rcases List.mem_cons.mp h with rfl | h
    · exact ⟨by decide, by decide⟩
    · rcases frac6_mem h with ⟨d, hd, rfl⟩
      rcases digitChar_props hd with ⟨_, h2, h3, _⟩
      exact ⟨h2, h3⟩

theorem fmtQ6_ne_nil (q : Rat) : fmtQ6 q ≠ [] := by
  rw [fmtQ6]
  intro h
  rcases List.append_eq_nil.mp h with ⟨-, h2⟩
  simp at h2

theorem natStr_head (n : Nat) :
    ∃ d, d < 10 ∧ (natStr n).head? = some (digitChar d) := by
  obtain ⟨c, t, hct⟩ := List.exists_cons_of_ne_nil (natStr_ne_nil n)
  have hc : c ∈ natStr n := by rw [hct]; exact List.mem_cons_self c t
  rcases natStr_mem hc with ⟨d, hd, rfl⟩
  exact ⟨d, hd, by rw [hct]; rfl⟩

theorem parseSign_neg (body : List Char) :
    parseSign (('-') :: body) = (true, body) := by
  rw [parseSign]
  simp

theorem parseSign_nosign {l : List Char} (h1 : l.head? ≠ some ('-'))
    (h2 : l.head? ≠ some ('+')) : parseSign l = (false, l) := by
  rw [parseSign, if_neg h1, if_neg h2]

theorem parseBody_fmt (a b : Nat) (hb : b < 1000000) :
    parseBody (natStr a ++ ('.') :: frac6 b) =
      some (mkRat ((a * 1000000 + b : Nat) : Int) 1000000) := by
  have hipdig : ∀ c ∈ natStr a, Char.isDigit c = true := fun c hc => by
    rcases natStr_mem hc with ⟨d, hd, rfl⟩
    exact (digitChar_props hd).1
  have hfpdig : ∀ c ∈ frac6 b, Char.isDigit c = true := fun c hc => by
    rcases frac6_mem hc with ⟨d, hd, rfl⟩
    exact (digitChar_props hd).1
  have htake := takeWhile_append_sep (p := Char.isDigit) (y := ('.')) (frac6 b)
    hipdig (by decide)
  have hdrop := dropWhile_append_sep (p := Char.isDigit) (y := ('.')) (frac6 b)
    hipdig (by decide)
  unfold parseBody
  rw [htake, hdrop]
  simp only [List.head?_cons, List.tail_cons, if_true]
  rw [takeWhile_all hfpdig, dropWhile_all hfpdig]
  rw [if_neg (by simp [natStr_ne_nil a])]
  rw [if_pos rfl]
  rw [natStr_val, frac6_val hb, frac6_len]
  norm_num

theorem parseDec_fmtQ6 (q : Rat) : parseDec (fmtQ6 q) = some (rnd6Q q) := by
  have hb : rnd6N q % 1000000 < 1000000 := Nat.mod_lt _ (by omega)
  have hbody := parseBody_fmt (rnd6N q / 1000000) (rnd6N q % 1000000) hb
  have hab : rnd6N q / 1000000 * 1000000 + rnd6N q % 1000000 = rnd6N q := by
    omega
  rw [hab] at hbody
  by_cases hq : q < 0
  · have hl : fmtQ6 q = ('-') :: (natStr (rnd6N q / 1000000) ++
        ('.') :: frac6 (rnd6N q % 1000000)) := by
      rw [fmtQ6, if_pos hq]
      rfl
    rw [hl]
    unfold parseDec
    rw [parseSign_neg]
    simp only [hbody, Option.map_some']
    rw [rnd6Q, if_pos hq, applySign]
    simp
  · have hl : fmtQ6 q = natStr (rnd6N q / 1000000) ++
        ('.') :: frac6 (rnd6N q % 1000000) := by
      rw [fmtQ6, if_neg hq]
      rfl
    obtain ⟨d, hd, hhead⟩ := natStr_head (rnd6N q / 1000000)
    rcases digitChar_props hd with ⟨-, -, -, -, hminus, hplus, -, -⟩
    have hh2 : (natStr (rnd6N q / 1000000) ++
        ('.') :: frac6 (rnd6N q % 1000000)).head? = some (digitChar d) :=
      head?_append_left hhead
    have hsign := parseSign_nosign (l := natStr (rnd6N q / 1000000) ++
        ('.') :: frac6 (rnd6N q % 1000000))
      (by rw [hh2]; simp [hminus]) (by rw [hh2]; simp [hplus])
    rw [hl]
    unfold parseDec
    rw [hsign]
    simp only [hbody, Option.map_some']
    rw [rnd6Q, if_neg hq, applySign]
    simp

theorem pyFloat_fmtF (v : PFloat) : pyFloat (fmtF v) = some (round6 v) := by
  cases v with
  | nan => decide
  | inf => decide
  | ninf => decide
  | val q =>
    rw [fmtF, pyFloat]
    have hdata : (String.mk (fmtQ6 q)).data = fmtQ6 q := rfl
    rw [hdata]
    rw [stripBy_eq_self (fun c hc => (fmtQ6_char_ok hc).1)]
    rw [parseDec_fmtQ6]
    rfl

/-! ## Helper lemmas: formatted fields are clean tokens -/

theorem pyFloat_fmtF_val (v : PFloat) : pyFloat (fmtF v) = some (round6 v) :=
  pyFloat_fmtF v

theorem fmtF_data_ne_nil (v : PFloat) : (fmtF v).data ≠ [] := by
  cases v with
  | nan => decide
  | inf => decide
  | ninf => decide
  | val q => exact fmtQ6_ne_nil q

theorem fmtF_char_ok {v : PFloat} {c : Char} (h : c ∈ (fmtF v).data) :
    isWSC c = false ∧ (c != ('#')) = true := by
  cases v with
  | nan =>
    have hall : ∀ x ∈ ("nan").data, isWSC x = false ∧ (x != ('#')) = true := by
      decide
    exact hall c h
  | inf =>
    have hall : ∀ x ∈ ("inf").data, isWSC x = false ∧ (x != ('#')) = true := by
      decide
    exact hall c h
  | ninf =>
    have hall : ∀ x ∈ ("-inf").data, isWSC x = false ∧ (x != ('#')) = true := by
      decide
    exact hall c h
  | val q => exact fmtQ6_char_ok h

theorem natReprS_data_ne_nil (n : Nat) : (natReprS n).data ≠ [] :=
  natStr_ne_nil n

theorem natReprS_char_ok {n : Nat} {c : Char} (h : c ∈ (natReprS n).data) :
    isWSC c = false ∧ (c != ('#')) = true := by
  rcases natStr_mem h with ⟨d, hd, rfl⟩
  rcases digitChar_props hd with ⟨-, h2, h3, -⟩
  exact ⟨h2, h3⟩

theorem stripCommentS_eq_self {s : String}
    (h : ∀ c ∈ s.data, (c != ('#')) = true) : stripCommentS s = s := by
  rw [stripCommentS, stripCommentL, takeWhile_all h, strmk_data]

theorem stripCommentS_joinSp (ts : List String)
    (htok : ∀ t ∈ ts, ∀ c ∈ (t : String).data, (c != ('#')) = true) :
    stripCommentS (joinSp ts) = joinSp ts := by
  apply stripCommentS_eq_self
  intro c hc
  rcases joinSp_chars ts c hc with rfl | ⟨t, ht, hct⟩
  · decide
  · exact htok t ht c hct

/-! ## Helper lemmas: the viewer's header scan -/

theorem headerEndAux_cons_ne (i : Nat) (l : String) (rest : List String)
    (h : pyStrip l ≠ ("end_header")) :
    headerEndAux i (l :: rest) = headerEndAux (i + 1) rest := by
  rw [headerEndAux, if_neg h]

theorem headerEndAux_cons_eq (i : Nat) (l : String) (rest : List String)
    (h : pyStrip l = ("end_header")) : headerEndAux i (l :: rest) = i + 1 := by
  rw [headerEndAux, if_pos h]

theorem pyStrip_elementVertex (n : Nat) :
    pyStrip (("element vertex ") ++ natReprS n) =
      ("element vertex ") ++ natReprS n := by
  rw [pyStrip, String.data_append]
  rw [stripBy_eq_self_of_ends ?h1 ?h2]
  · rw [← String.data_append, strmk_data]
  case h1 =>
    intro c hc
    have he : ((("element vertex ").data ++ (natReprS n).data)).head? =
        some ('e') := head?_append_left (by decide)
    rw [he] at hc
    rcases Option.some.injEq .. |>.mp hc with rfl
    decide
  case h2 =>
    intro c hc
    obtain ⟨c', hc'⟩ := Option.isSome_iff_exists.mp
      (List.getLast?_isSome.mpr (natReprS_data_ne_nil n))
    have he : ((("element vertex ").data ++ (natReprS n).data)).getLast? =
        some c' := getLast?_append_right hc'
    rw [he] at hc
    rcases Option.some.injEq .. |>.mp hc with rfl
    exact (natReprS_char_ok (getLast?_mem_of_eq hc')).1

theorem headerEnd_plyPC (n : Nat) (body : List String) :
    headerEnd (plyHeaderPC n ++ body) = 7 := by
  rw [plyHeaderPC]
  simp only [List.cons_append, List.nil_append]
  rw [headerEnd]
  rw [headerEndAux_cons_ne _ _ _ (by decide)]
  rw [headerEndAux_cons_ne _ _ _ (by decide)]
  rw [headerEndAux_cons_ne _ _ _ (by
    rw [pyStrip_elementVertex]
    exact elementVertex_ne_endHeader _)]
  rw [headerEndAux_cons_ne _ _ _ (by decide)]
  rw [headerEndAux_cons_ne _ _ _ (by decide)]
  rw [headerEndAux_cons_ne _ _ _ (by decide)]
  rw [headerEndAux_cons_eq _ _ _ (by decide)]

theorem drop7_plyPC (n : Nat) (body : List String) :
    (plyHeaderPC n ++ body).drop 7 = body := by
  have h : (plyHeaderPC n).length = 7 := by
    simp [plyHeaderPC]
  rw [← h, List.drop_left]

theorem headerEndAux_none :
    ∀ (lines : List String) (i : Nat),
      (∀ l ∈ lines, pyStrip l ≠ ("end_header")) → headerEndAux i lines = 0
  | [], _, _ => rfl
  | l :: rest, i, h => by
    rw [headerEndAux_cons_ne _ _ _ (h l (List.mem_cons_self l rest))]
    exact headerEndAux_none rest (i + 1)
      fun x hx => h x (List.mem_cons_of_mem l hx)

theorem headerEnd_none {lines : List String}
    (h : ∀ l ∈ lines, pyStrip l ≠ ("end_header")) : headerEnd lines = 0 :=
  headerEndAux_none lines 0 h


/-! ## Helper lemmas: NDArr shaping -/

theorem mkNDArr_d2_inv {rows rs : List (List PFloat)}
    (h : mkNDArr rows = .d2 rs) : rows = rs ∧ 2 ≤ rows.length := by
  match rows with
  | [] => simp [mkNDArr] at h
  | [r] =>
    match r with
    | [] => simp [mkNDArr] at h
    | [v] => simp [mkNDArr] at h
    | a :: b :: t => simp [mkNDArr] at h
  | a :: b :: t =>
    have hmk : mkNDArr (a :: b :: t) = .d2 (a :: b :: t) := by
      cases a with
      | nil => rfl
      | cons c cs => cases cs <;> rfl
    rw [hmk] at h
    rcases NDArr.d2.injEq .. |>.mp h with rfl
    exact ⟨rfl, by simp⟩

theorem npcol_mkNDArr_single (r : List PFloat) (j : Nat) :
    npcol (mkNDArr [r]) j = none := by
  match r with
  | [] => rfl
  | [v] => rfl
  | a :: b :: t => rfl

theorem uniformShape_cons (r : List PFloat) (rest : List (List PFloat)) :
    uniformShape (r :: rest) =
      if rest.all (fun r2 => r2.length = r.length) then
        some (mkNDArr (r :: rest))
      else none := rfl

theorem omapM_map_some {f : β → Option γ} {g : α → β} {h : α → γ} :
    ∀ (l : List α), (∀ a ∈ l, f (g a) = some (h a)) →
      omapM f (l.map g) = some (l.map h)
  | [], _ => rfl
  | a :: t, hfg => by
    rw [List.map_cons, omapM, hfg a (List.mem_cons_self a t),
      omapM_map_some t (fun x hx => hfg x (List.mem_cons_of_mem a hx))]
    rfl

/-! ## Helper lemmas: the viewer on converter output -/

theorem omapM_pyFloat_three (a b c : PFloat) :
    omapM pyFloat [fmtF a, fmtF b, fmtF c] =
      some [round6 a, round6 b, round6 c] := by
  simp [omapM, pyFloat_fmtF]

theorem pcBodyLine_tokens (p : PFloat × PFloat × PFloat) :
    wsSplitStr (stripCommentS (pcBodyLine p.1 p.2.1 p.2.2)) =
      [fmtF p.1, fmtF p.2.1, fmtF p.2.2] := by
  rw [pcBodyLine]
  rw [stripCommentS_joinSp _ ?hashok]
  case hashok =>
    intro t ht c hc
    simp only [List.mem_cons, List.not_mem_nil, or_false] at ht
    rcases ht with rfl | rfl | rfl <;> exact (fmtF_char_ok hc).2
  rw [wsSplitStr_joinSp _ (by simp) ?tokok]
  case tokok =>
    intro t ht
    simp only [List.mem_cons, List.not_mem_nil, or_false] at ht
    rcases ht with rfl | rfl | rfl <;>
      exact ⟨fmtF_data_ne_nil _, fun c hc => (fmtF_char_ok hc).1⟩

theorem lTokenRows_pcBody (pts : List (PFloat × PFloat × PFloat)) :
    lTokenRows (pts.map fun p => pcBodyLine p.1 p.2.1 p.2.2) =
      pts.map fun p => [fmtF p.1, fmtF p.2.1, fmtF p.2.2] := by
  rw [lTokenRows, List.map_map]
  rw [show ((fun l => wsSplitStr (stripCommentS l)) ∘
      fun p : PFloat × PFloat × PFloat => pcBodyLine p.1 p.2.1 p.2.2) =
      fun p : PFloat × PFloat × PFloat => [fmtF p.1, fmtF p.2.1, fmtF p.2.2]
    from funext fun p => pcBodyLine_tokens p]
  rw [List.filter_eq_self.mpr]
  intro r hr
  rcases List.mem_map.mp hr with ⟨t, ht, rfl⟩
  simp

theorem loadtxt_pcBody (pts : List (PFloat × PFloat × PFloat)) :
    loadtxt (pts.map fun p => pcBodyLine p.1 p.2.1 p.2.2) =
      uniformShape (pts.map fun p => [round6 p.1, round6 p.2.1, round6 p.2.2]) := by
  rw [loadtxt, lTokenRows_pcBody]
  rw [omapM_map_some pts (fun p _ => omapM_pyFloat_three p.1 p.2.1 p.2.2)]
  rfl

theorem uniformShape_pc3 (pts : List (PFloat × PFloat × PFloat))
    (h2 : 2 ≤ pts.length) :
    uniformShape (pts.map fun p => [round6 p.1, round6 p.2.1, round6 p.2.2]) =
      some (NDArr.d2 (pts.map fun p =>
        [round6 p.1, round6 p.2.1, round6 p.2.2])) := by
  obtain ⟨q1, pts1, rfl⟩ : ∃ q1 pts1, pts = q1 :: pts1 := by
    match pts with
    | [] => simp at h2
    | q :: t => exact ⟨q, t, rfl⟩
  obtain ⟨q2, pts2, rfl⟩ : ∃ q2 pts2, pts1 = q2 :: pts2 := by
    match pts1 with
    | [] => simp at h2
    | q :: t => exact ⟨q, t, rfl⟩
  rw [List.map_cons, List.map_cons, uniformShape_cons, if_pos ?unif]
  case unif =>
    simp only [List.all_eq_true]
    intro r hr
    rcases List.mem_cons.mp hr with rfl | hr
    · rfl
    · rcases List.mem_map.mp hr with ⟨t, ht, rfl⟩
      rfl
  rfl

theorem viewerBodyParse_pcBody (pts : List (PFloat × PFloat × PFloat))
    (h2 : 2 ≤ pts.length) :
    viewerBodyParse (pts.map fun p => pcBodyLine p.1 p.2.1 p.2.2) =
      some (pts.map round6T) := by
  have hx : npcol (NDArr.d2 (pts.map fun p =>
      [round6 p.1, round6 p.2.1, round6 p.2.2])) 0 =
      some (pts.map fun p => round6 p.1) := by
    rw [npcol]
    exact omapM_map_some pts (fun p _ => rfl)
  have hy : npcol (NDArr.d2 (pts.map fun p =>
      [round6 p.1, round6 p.2.1, round6 p.2.2])) 1 =
      some (pts.map fun p => round6 p.2.1) := by
    rw [npcol]
    exact omapM_map_some pts (fun p _ => rfl)
  have hz : npcol (NDArr.d2 (pts.map fun p =>
      [round6 p.1, round6 p.2.1, round6 p.2.2])) 2 =
      some (pts.map fun p => round6 p.2.2) := by
    rw [npcol]
    exact omapM_map_some pts (fun p _ => rfl)
  unfold viewerBodyParse
  rw [loadtxt_pcBody, uniformShape_pc3 pts h2]
  simp only [Option.bind_eq_bind, Option.some_bind, hx, hy, hz]
  rw [zipW3_maps]
  rfl

/-! ## Helper lemmas: destructuring a successful pointcloud conversion -/

theorem save_pc_inv {input out : List String}
    (h : save_pointcloud_from_ORB_SLAM input = some out) :
    ∃ rows x y z,
      genfromtxt input = some (NDArr.d2 rows) ∧ 2 ≤ rows.length ∧
      npcol (NDArr.d2 rows) 0 = some x ∧
      npcol (NDArr.d2 rows) 1 = some y ∧
      npcol (NDArr.d2 rows) 2 = some z ∧
      x.length = rows.length ∧ y.length = rows.length ∧
      z.length = rows.length ∧
      out = plyHeaderPC x.length ++ zipW3 pcBodyLine x y z := by
  simp only [save_pointcloud_from_ORB_SLAM, Option.bind_eq_bind, bind,
    Option.bind_eq_some, Option.pure_def, Option.some.injEq] at h
  obtain ⟨coords, hc, x, hx, y, hy, z, hz, hout⟩ := h
  cases coords with
  | d0 v => simp [npcol] at hx
  | d1 r => simp [npcol] at hx
  | d2 rows =>
    have hlen2 : 2 ≤ rows.length := by
      rw [genfromtxt] at hc
      cases hfr : (gFieldRows input).map (fun r => r.map gconv) with
      | nil =>
        rw [hfr] at hc
        simp [uniformShape, mkNDArr] at hc
      | cons r0 rt =>
        rw [hfr, uniformShape_cons] at hc
        split_ifs at hc with hunif
        injection hc with hmk
        obtain ⟨heq, hlen⟩ := mkNDArr_d2_inv hmk
        rw [← heq]
        exact hlen
    have hxl : x.length = rows.length := by
      rw [npcol] at hx
      exact omapM_some_length hx
    have hyl : y.length = rows.length := by
      rw [npcol] at hy
      exact omapM_some_length hy
    have hzl : z.length = rows.length := by
      rw [npcol] at hz
      exact omapM_some_length hz
    exact ⟨rows, x, y, z, hc, hlen2, hx, hy, hz, hxl, hyl, hzl, hout.symm⟩

/-- Claim C2: every point set written by the point-cloud converter is
recovered by the viewer's parser as exactly the same number of triples,
each equal to the corresponding input point at the written precision of
6 decimal places (`round6`). -/
theorem pointcloud_viewer_roundtrip :
    ∀ input out : List String, save_pointcloud_from_ORB_SLAM input = some out →
      ∃ pts, pcPoints input = some pts ∧
        plot_3d_point_cloud out = some (pts.map round6T) ∧
        (pts.map round6T).length = pts.length := by
  intro input out h
  obtain ⟨rows, x, y, z, hc, hlen2, hx, hy, hz, hxl, hyl, hzl, hout⟩ :=
    save_pc_inv h
  refine ⟨zipW3 (fun a b c => (a, b, c)) x y z, ?_, ?_, by simp⟩
  · simp only [pcPoints, Option.bind_eq_bind, hc, Option.some_bind, hx, hy, hz,
      Option.pure_def]
  · have hptlen : (zipW3 (fun a b c => (a, b, c)) x y z).length = rows.length := by
      rw [zipW3_length (by omega) (by omega)]
      exact hxl
    rw [hout, plot_3d_point_cloud, headerEnd_plyPC, drop7_plyPC]
    rw [zipW3_eq_map x y z]
    exact viewerBodyParse_pcBody _ (by omega)

/-- Witness for C2 at a concrete two-point input. -/
theorem pointcloud_viewer_roundtrip_witness :
    ∃ pts, pcPoints [("pos_x, pos_y, pos_z"), ("1.5, 2.25, 3"), ("4, 5, 6.125")] =
        some pts ∧
      plot_3d_point_cloud (plyHeaderPC 2 ++
        [("1.500000 2.250000 3.000000"), ("4.000000 5.000000 6.125000")]) =
        some (pts.map round6T) ∧
      (pts.map round6T).length = pts.length :=
  pointcloud_viewer_roundtrip
    [("pos_x, pos_y, pos_z"), ("1.5, 2.25, 3"), ("4, 5, 6.125")]
    (plyHeaderPC 2 ++
      [("1.500000 2.250000 3.000000"), ("4.000000 5.000000 6.125000")])
    (by decide)

/-! ## Helper lemmas: destructuring a successful trajectory conversion -/

theorem mkNDArr_cons_cons (a b : List PFloat) (t : List (List PFloat)) :
    mkNDArr (a :: b :: t) = .d2 (a :: b :: t) := by
  cases a with
  | nil => rfl
  | cons c cs => cases cs <;> rfl

theorem get?_append_left {l1 l2 : List α} {n : Nat} (h : n < l1.length) :
    (l1 ++ l2).get? n = l1.get? n := by
  rw [List.get?_eq_getElem?, List.get?_eq_getElem?, List.getElem?_append_left h]

theorem save_traj_inv {input out : List String}
    (h : save_trajectory_from_ORB_SLAM input = some out) :
    ∃ pts, omapM trajPointOfLine input = some pts ∧
      out = trajHeaderLines pts.length ++
        pts.map (fun p => trajBodyLine p 144 238 144) := by
  simp only [save_trajectory_from_ORB_SLAM, Option.bind_eq_bind,
    Option.bind_eq_some, Option.pure_def, Option.some.injEq] at h
  obtain ⟨pts, hpts, hdr, hhdr, hout⟩ := h
  simp only [formatTrajHeader, Option.some.injEq] at hhdr
  refine ⟨pts, hpts, ?_⟩
  rw [← hout, ← hhdr]
  rw [zipW4_maps]

theorem trajHeaderLines_length (n : Nat) : (trajHeaderLines n).length = 10 := by
  simp [trajHeaderLines]

theorem trajHeaderLines_get2 (n : Nat) :
    (trajHeaderLines n).get? 2 = some (("element vertex ") ++ natReprS n) := rfl

theorem joinSp_head_mem :
    ∀ (ts : List String), ts ≠ [] → (∀ t ∈ ts, (t : String).data ≠ []) →
      ∃ c, (joinSp ts).data.head? = some c ∧ ∃ t ∈ ts, c ∈ (t : String).data
  | [], h, _ => absurd rfl h
  | [t], _, htok => by
    obtain ⟨a, tl, ha⟩ := List.exists_cons_of_ne_nil
      (htok t (List.mem_cons_self t []))
    refine ⟨a, ?_, t, List.mem_cons_self t [], ?_⟩
    · rw [show joinSp [t] = t from rfl, ha]
      rfl
    · rw [ha]
      exact List.mem_cons_self a tl
  | t :: u :: ts, _, htok => by
    obtain ⟨a, tl, ha⟩ := List.exists_cons_of_ne_nil
      (htok t (List.mem_cons_self t _))
    refine ⟨a, ?_, t, List.mem_cons_self t _, ?_⟩
    · rw [joinSp_data_cons,
        @head?_append_left _ t.data ((' ') :: (joinSp (u :: ts)).data) a
          (by rw [ha]; rfl)]
    · rw [ha]
      exact List.mem_cons_self a tl

theorem joinSp_getLast_mem :
    ∀ (ts : List String), ts ≠ [] → (∀ t ∈ ts, (t : String).data ≠ []) →
      ∃ c, (joinSp ts).data.getLast? = some c ∧ ∃ t ∈ ts, c ∈ (t : String).data
  | [], h, _ => absurd rfl h
  | [t], _, htok => by
    obtain ⟨c, hc⟩ := Option.isSome_iff_exists.mp
      (List.getLast?_isSome.mpr (htok t (List.mem_cons_self t [])))
    exact ⟨c, hc, t, List.mem_cons_self t [], getLast?_mem_of_eq hc⟩
  | t :: u :: ts, _, htok => by
    obtain ⟨c, hc, t0, ht0, hct0⟩ := joinSp_getLast_mem (u :: ts) (by simp)
      (fun v hv => htok v (List.mem_cons_of_mem t hv))
    refine ⟨c, ?_, t0, List.mem_cons_of_mem t ht0, hct0⟩
    rw [joinSp_data_cons]
    apply getLast?_append_right
    rw [List.getLast?_cons, hc]
    rfl

/-! ## Claim C3 -/

/-- Claim C3: for a trajectory line made of an image-path token followed
by 12 numeric tokens (single-space separated), the extracted point is
the value of the 4th, 8th and 12th numeric token — e.g.
`img.png 1 0 0 10 0 1 0 20 0 0 1 30` yields (10, 20, 30). -/
theorem trajectory_translation_extraction :
    ∀ (p t1 t2 t3 t4 t5 t6 t7 t8 t9 t10 t11 t12 : String)
      (v4 v8 v12 : PFloat),
      (∀ t ∈ [p, t1, t2, t3, t4, t5, t6, t7, t8, t9, t10, t11, t12],
        (t : String).data ≠ [] ∧ ∀ c ∈ (t : String).data, isWSC c = false) →
      (∀ t ∈ [t1, t2, t3, t4, t5, t6, t7, t8, t9, t10, t11, t12],
        (pyFloat t).isSome = true) →
      pyFloat t4 = some v4 → pyFloat t8 = some v8 → pyFloat t12 = some v12 →
      trajPointOfLine
        (joinSp [p, t1, t2, t3, t4, t5, t6, t7, t8, t9, t10, t11, t12]) =
        some (v4, v8, v12) := by
  intro p t1 t2 t3 t4 t5 t6 t7 t8 t9 t10 t11 t12 v4 v8 v12 htok hnum h4 h8 h12
  have hne : ([p, t1, t2, t3, t4, t5, t6, t7, t8, t9, t10, t11, t12] :
      List String) ≠ [] := by simp
  have hh : ∀ c, (joinSp [p, t1, t2, t3, t4, t5, t6, t7, t8, t9, t10, t11,
      t12]).data.head? = some c → isWSC c = false := by
    intro c hc
    obtain ⟨c0, hc0, t0, ht0, hct0⟩ := joinSp_head_mem _ hne
      (fun t ht => (htok t ht).1)
    rw [hc0] at hc
    rcases Option.some.injEq .. |>.mp hc with rfl
    exact (htok t0 ht0).2 c0 hct0
  have hl : ∀ c, (joinSp [p, t1, t2, t3, t4, t5, t6, t7, t8, t9, t10, t11,
      t12]).data.getLast? = some c → isWSC c = false := by
    intro c hc
    obtain ⟨c0, hc0, t0, ht0, hct0⟩ := joinSp_getLast_mem _ hne
      (fun t ht => (htok t ht).1)
    rw [hc0] at hc
    rcases Option.some.injEq .. |>.mp hc with rfl
    exact (htok t0 ht0).2 c0 hct0
  have hstrip : pyStrip
      (joinSp [p, t1, t2, t3, t4, t5, t6, t7, t8, t9, t10, t11, t12]) =
      joinSp [p, t1, t2, t3, t4, t5, t6, t7, t8, t9, t10, t11, t12] := by
    rw [pyStrip, stripBy_eq_self_of_ends hh hl, strmk_data]
  have hcols : splitSpStr
      (joinSp [p, t1, t2, t3, t4, t5, t6, t7, t8, t9, t10, t11, t12]) =
      [p, t1, t2, t3, t4, t5, t6, t7, t8, t9, t10, t11, t12] := by
    apply splitSpStr_joinSp _ hne
    intro t ht c hc
    have hw := (htok t ht).2 c hc
    simp only [isWSC, Bool.or_eq_false_iff] at hw
    exact hw.1.1.1.1.1
  rw [trajPointOfLine, hstrip, hcols]
  simp only [List.get?, Option.some_bind, h4, h8, h12, Option.bind_eq_bind,
    Option.some_bind, Option.pure_def]

/-- Witness for C3: the concrete matrix row from the specification. -/
theorem trajectory_translation_extraction_witness :
    trajPointOfLine (("img.png 1 0 0 10 0 1 0 20 0 0 1 30")) =
      some (PFloat.val 10, PFloat.val 20, PFloat.val 30) := by
  have hj : joinSp [("img.png"), ("1"), ("0"), ("0"), ("10"), ("0"), ("1"),
      ("0"), ("20"), ("0"), ("0"), ("1"), ("30")] =
      ("img.png 1 0 0 10 0 1 0 20 0 0 1 30") := by decide
  rw [← hj]
  exact trajectory_translation_extraction ("img.png") ("1") ("0") ("0") ("10")
    ("0") ("1") ("0") ("20") ("0") ("0") ("1") ("30") _ _ _
    (by decide) (by decide) (by decide) (by decide) (by decide)

/-! ## Claim C4 -/

/-- Refutation of C4 at a concrete input: on the one-pose input the
header line produced by `'... element vertex %d ...' % x.shape` is the
well-formed `element vertex 1` — `x.shape` is the one-element tuple
`(1,)`, and `%`-formatting one `%d` against a one-tuple substitutes the
integer, embedding no tuple or other malformed value. -/
theorem trajectory_header_shape_format_concrete :
    save_trajectory_from_ORB_SLAM [("img.png 1 0 0 10 0 1 0 20 0 0 1 30")] =
      some [("ply"), ("format ascii 1.0"), ("element vertex 1"),
        ("property float x"), ("property float y"), ("property float z"),
        ("property uchar red"), ("property uchar green"),
        ("property uchar blue"), ("end_header"),
        ("10.000000 20.000000 30.000000 144 238 144")] := by
  decide

/-- The general form of the refutation of C4: for every trajectory
input on which the converter succeeds, the third header line is
`element vertex <n>` for a natural number `n` — applying the one-`%d`
format string to the one-element shape tuple `(len(x),)` always
formats the integer, so no input makes the header malformed. -/
theorem trajectory_header_never_malformed :
    ∀ input : List String,
      match save_trajectory_from_ORB_SLAM input with
      | none => True
      | some out =>
        ∃ n : Nat, out.get? 2 = some (("element vertex ") ++ natReprS n) := by
  intro input
  cases h : save_trajectory_from_ORB_SLAM input with
  | none => trivial
  | some out =>
    obtain ⟨pts, -, hout⟩ := save_traj_inv h
    refine ⟨pts.length, ?_⟩
    rw [hout, get?_append_left (by rw [trajHeaderLines_length]; omega),
      trajHeaderLines_get2]

/-- C4 as amended: the trajectory header's `element vertex` line always
carries exactly the scalar number of body lines (the shape tuple has one
element, and `%`-formatting one `%d` against a one-tuple yields that
element). -/
theorem trajectory_header_count_correct :
    ∀ input out : List String, save_trajectory_from_ORB_SLAM input = some out →
      out.get? 2 = some (("element vertex ") ++ natReprS (out.length - 10)) := by
  intro input out h
  obtain ⟨pts, -, hout⟩ := save_traj_inv h
  have hlen : out.length = 10 + pts.length := by
    rw [hout, List.length_append, trajHeaderLines_length, List.length_map]
  rw [hout, get?_append_left (by rw [trajHeaderLines_length]; omega),
    trajHeaderLines_get2]
  rw [← hout, hlen]
  simp

/-- Witness for the amended C4 at a concrete one-pose input. -/
theorem trajectory_header_count_correct_witness :
    (trajHeaderLines 1 ++
        [("10.000000 20.000000 30.000000 144 238 144")]).get? 2 =
      some (("element vertex ") ++ natReprS ((trajHeaderLines 1 ++
        [("10.000000 20.000000 30.000000 144 238 144")]).length - 10)) :=
  trajectory_header_count_correct
    [("img.png 1 0 0 10 0 1 0 20 0 0 1 30")]
    (trajHeaderLines 1 ++ [("10.000000 20.000000 30.000000 144 238 144")])
    (by decide)

/-! ## Claim C7 -/

/-- Refutation of C7 as stated: the line `img  9  9  10  9  20  30`
(double spaces) has only 7 whitespace-separated tokens — fewer than
13 — yet the converter succeeds on it, because `split(" ")` produces
empty fields that shift the indices.  The written point is (9, 9, 30). -/
theorem trajectory_whitespace_token_counterexample :
    (wsSplitStr (("img  9  9  10  9  20  30"))).length = 7 ∧
      save_trajectory_from_ORB_SLAM [("img  9  9  10  9  20  30")] =
        some [("ply"), ("format ascii 1.0"), ("element vertex 1"),
          ("property float x"), ("property float y"), ("property float z"),
          ("property uchar red"), ("property uchar green"),
          ("property uchar blue"), ("end_header"),
          ("9.000000 9.000000 30.000000 144 238 144")] := by
  constructor
  · decide
  · decide

/-- C7 as amended: with fields obtained by splitting on single spaces
(`line.strip().split(" ")`), the converter fails (raises, writing
nothing) whenever some line has fewer than 13 such fields or its
fields at indices 4, 8 or 12 do not parse as floats. -/
theorem trajectory_parse_failure :
    ∀ (input : List String) (line : String), line ∈ input →
      ((splitSpStr (pyStrip line)).length < 13 ∨
        ((splitSpStr (pyStrip line)).get? 4).bind pyFloat = none ∨
        ((splitSpStr (pyStrip line)).get? 8).bind pyFloat = none ∨
        ((splitSpStr (pyStrip line)).get? 12).bind pyFloat = none) →
      save_trajectory_from_ORB_SLAM input = none := by
  intro input line hmem hbad
  have hline : trajPointOfLine line = none := by
    rcases hbad with hlen | h4 | h8 | h12
    · have h12 : (splitSpStr (pyStrip line)).get? 12 = none :=
        List.get?_eq_none.mpr (by omega)
      simp only [trajPointOfLine, h12, Option.none_bind, Option.bind_eq_bind,
        obind_const_none]
    · simp only [trajPointOfLine, h4, Option.none_bind, Option.bind_eq_bind]
    · simp only [trajPointOfLine, h8, Option.none_bind, Option.bind_eq_bind,
        obind_const_none]
    · simp only [trajPointOfLine, h12, Option.none_bind, Option.bind_eq_bind,
        obind_const_none]
  rw [save_trajectory_from_ORB_SLAM, omapM_none hmem hline]
  rfl

/-- Witness for the amended C7: a 4-token line makes the converter
fail. -/
theorem trajectory_parse_failure_witness :
    save_trajectory_from_ORB_SLAM [("img.png 1 0 0")] = none :=
  trajectory_parse_failure [("img.png 1 0 0")] (("img.png 1 0 0"))
    (List.mem_cons_self _ _) (Or.inl (by decide))

/-! ## Claim C8 -/

/-- Claim C8: every body line the trajectory converter writes consists
of six whitespace fields, and the last three are exactly
`144 238 144` — the constant light-green colour. -/
theorem trajectory_color_constancy :
    ∀ input out : List String, save_trajectory_from_ORB_SLAM input = some out →
      ∀ l ∈ out.drop 10, (wsSplitStr l).length = 6 ∧
        (wsSplitStr l).drop 3 = [("144"), ("238"), ("144")] := by
  intro input out h l hl
  obtain ⟨pts, -, hout⟩ := save_traj_inv h
  rw [hout, show (10 : Nat) = (trajHeaderLines pts.length).length from
    (trajHeaderLines_length _).symm, List.drop_left] at hl
  rcases List.mem_map.mp hl with ⟨q, -, rfl⟩
  have hsplit : wsSplitStr (trajBodyLine q 144 238 144) =
      [fmtF q.1, fmtF q.2.1, fmtF q.2.2, natReprS 144, natReprS 238,
        natReprS 144] := by
    rw [trajBodyLine]
    apply wsSplitStr_joinSp _ (by simp)
    intro t ht
    simp only [List.mem_cons, List.not_mem_nil, or_false] at ht
    rcases ht with rfl | rfl | rfl | rfl | rfl | rfl
    · exact ⟨fmtF_data_ne_nil _, fun c hc => (fmtF_char_ok hc).1⟩
    · exact ⟨fmtF_data_ne_nil _, fun c hc => (fmtF_char_ok hc).1⟩
    · exact ⟨fmtF_data_ne_nil _, fun c hc => (fmtF_char_ok hc).1⟩
    · exact ⟨natReprS_data_ne_nil _, fun c hc => (natReprS_char_ok hc).1⟩
    · exact ⟨natReprS_data_ne_nil _, fun c hc => (natReprS_char_ok hc).1⟩
    · exact ⟨natReprS_data_ne_nil _, fun c hc => (natReprS_char_ok hc).1⟩
  rw [hsplit]
  refine ⟨rfl, ?_⟩
  have hdrop : List.drop 3 [fmtF q.1, fmtF q.2.1, fmtF q.2.2, natReprS 144,
      natReprS 238, natReprS 144] = [natReprS 144, natReprS 238, natReprS 144] :=
    rfl
  rw [hdrop]
  decide

/-- Witness for C8 at the one-pose example input. -/
theorem trajectory_color_constancy_witness :
    (wsSplitStr (("10.000000 20.000000 30.000000 144 238 144"))).length = 6 ∧
      (wsSplitStr (("10.000000 20.000000 30.000000 144 238 144"))).drop 3 =
        [("144"), ("238"), ("144")] :=
  trajectory_color_constancy [("img.png 1 0 0 10 0 1 0 20 0 0 1 30")]
    (trajHeaderLines 1 ++ [("10.000000 20.000000 30.000000 144 238 144")])
    (by decide) (("10.000000 20.000000 30.000000 144 238 144")) (by decide)

/-! ## Claim C1 -/

/-- Claim C1 (code bug): on inputs yielding exactly one point or zero
points, the point-cloud converter does not write a consistent PLY — it
raises before writing anything, because `np.genfromtxt` squeezes at
most one data row to a non-2-d array and `coords[:, 0]` then fails.
(The trajectory converter, by contrast, handles 0 and 1 points.) -/
theorem pointcloud_fails_on_small_inputs :
    save_pointcloud_from_ORB_SLAM [("pos_x, pos_y, pos_z"), ("1, 2, 3")] =
        none ∧
      save_pointcloud_from_ORB_SLAM [("pos_x, pos_y, pos_z")] = none := by
  constructor
  · decide
  · decide

/-! ## Claim C5 -/

/-- Refutation of C5 as stated: a data row whose first field is the
non-numeric `a` does not raise — `np.genfromtxt` converts it to `nan`
and the converter succeeds, writing a `nan` coordinate into the PLY
body. -/
theorem pointcloud_nonnumeric_succeeds :
    save_pointcloud_from_ORB_SLAM
        [("pos_x, pos_y, pos_z"), ("a, 2, 3"), ("4, 5, 6")] =
      some [("ply"), ("format ascii 1.0"), ("element vertex 2"),
        ("property float x"), ("property float y"), ("property float z"),
        ("end_header"), ("nan 2.000000 3.000000"),
        ("4.000000 5.000000 6.000000")] := by
  decide

/-- C5 as amended: the point-cloud converter fails whenever some data
row has fewer than 3 fields (ragged rows fail inside `genfromtxt`,
uniformly short rows fail at column extraction); non-numeric fields,
however, are not rejected but silently become `nan`
(see `pointcloud_nonnumeric_succeeds`). -/
theorem pointcloud_short_row_failure :
    ∀ (input : List String) (row : List String), row ∈ gFieldRows input →
      row.length < 3 → save_pointcloud_from_ORB_SLAM input = none := by
  intro input row hrow hlen
  simp only [save_pointcloud_from_ORB_SLAM, genfromtxt, Option.bind_eq_bind]
  cases hfr : gFieldRows input with
  | nil =>
    rw [hfr] at hrow
    simp at hrow
  | cons r0 rt =>
    simp only [List.map_cons, uniformShape_cons]
    by_cases hunif : (rt.map (fun r => r.map gconv)).all
        (fun r2 => r2.length = (r0.map gconv).length)
    · rw [if_pos hunif]
      have hr0 : r0.length < 3 := by
        rw [hfr] at hrow
        rcases List.mem_cons.mp hrow with rfl | hr
        · exact hlen
        · have hmm := List.all_eq_true.mp hunif (row.map gconv)
            (List.mem_map_of_mem (fun r => r.map gconv) hr)
          simp only [List.length_map, decide_eq_true_eq] at hmm
          omega
      cases rt with
      | nil =>
        simp only [List.map_nil, Option.some_bind]
        rw [npcol_mkNDArr_single]
        simp
      | cons r1 rt2 =>
        simp only [List.map_cons, Option.some_bind]
        rw [mkNDArr_cons_cons]
        have hz : npcol (NDArr.d2 (r0.map gconv :: r1.map gconv ::
            rt2.map (fun r => r.map gconv))) 2 = none := by
          rw [npcol]
          apply omapM_none (List.mem_cons_self _ _)
          exact List.get?_eq_none.mpr (by simp; omega)
        simp only [hz, Option.none_bind, obind_const_none]
    · rw [if_neg hunif]
      simp

/-- Witness for the amended C5: two uniform 2-field rows make the
converter fail. -/
theorem pointcloud_short_row_failure_witness :
    save_pointcloud_from_ORB_SLAM [("pos_x, pos_y"), ("1, 2"), ("3, 4")] =
      none :=
  pointcloud_short_row_failure [("pos_x, pos_y"), ("1, 2"), ("3, 4")]
    [("1"), ("2")] (by decide) (by decide)

/-! ## Claim C6 -/

/-- Refutation of C6 as stated: a file of numeric lines with no
`end_header` marker does not raise at all — the scan leaves
`header_end = 0`, the whole file parses as the body, and the viewer
happily extracts the points. -/
theorem viewer_no_end_header_succeeds :
    (([("1 2 3"), ("4 5 6")] : List String).all
        (fun l => ! (pyStrip l == ("end_header")))) = true ∧
      plot_3d_point_cloud [("1 2 3"), ("4 5 6")] =
        some [(PFloat.val 1, PFloat.val 2, PFloat.val 3),
          (PFloat.val 4, PFloat.val 5, PFloat.val 6)] := by
  constructor
  · decide
  · decide

/-- C6 as amended: an input with no `end_header` line is not specially
detected; `header_end` stays 0 and the viewer treats the entire file as
the vertex body, failing only when that body fails numeric parsing or
column extraction — there is no dedicated format error. -/
theorem viewer_no_end_header_parses_whole_file :
    ∀ input : List String, (∀ l ∈ input, pyStrip l ≠ ("end_header")) →
      plot_3d_point_cloud input = viewerBodyParse input := by
  intro input h
  rw [plot_3d_point_cloud, headerEnd_none h, List.drop_zero]

/-- Witness for the amended C6 at a concrete numeric input. -/
theorem viewer_no_end_header_parses_whole_file_witness :
    plot_3d_point_cloud [("1 2 3"), ("4 5 6")] =
      viewerBodyParse [("1 2 3"), ("4 5 6")] :=
  viewer_no_end_header_parses_whole_file [("1 2 3"), ("4 5 6")] (by decide)

/-! ## Claim C9 -/

/-- Claim C9: running the point-cloud converter twice on the same input
with the same output path yields exactly the bytes of a single run — the
second run recomputes the same lines and overwrites the file with them. -/
theorem pointcloud_idempotent :
    ∀ input out : List String, save_pointcloud_from_ORB_SLAM input = some out →
      runPointcloudConverterTwice input = some out := by
  intro input out h
  simp only [runPointcloudConverterTwice, h, Option.bind_eq_bind,
    Option.some_bind]

/-- Witness for C9 at a concrete two-point input. -/
theorem pointcloud_idempotent_witness :
    runPointcloudConverterTwice [("pos_x, pos_y, pos_z"), ("1, 2, 3"),
        ("4, 5, 6")] =
      some [("ply"), ("format ascii 1.0"), ("element vertex 2"),
        ("property float x"), ("property float y"), ("property float z"),
        ("end_header"), ("1.000000 2.000000 3.000000"),
        ("4.000000 5.000000 6.000000")] :=
  pointcloud_idempotent [("pos_x, pos_y, pos_z"), ("1, 2, 3"), ("4, 5, 6")]
    [("ply"), ("format ascii 1.0"), ("element vertex 2"),
      ("property float x"), ("property float y"), ("property float z"),
      ("end_header"), ("1.000000 2.000000 3.000000"),
      ("4.000000 5.000000 6.000000")]
    (by decide)

/-! ## Claim C10 -/

/-- Claim C10: the viewer never renders a body of exactly one vertex
line — a single data row is squeezed to a 1-d array, so `points[:, 0]`
fails — and more generally every body it does render has at least two
data rows. -/
theorem viewer_requires_two_rows :
    ∀ input : List String,
      (∀ r, lTokenRows (input.drop (headerEnd input)) = [r] →
        plot_3d_point_cloud input = none) ∧
      (∀ pts, plot_3d_point_cloud input = some pts →
        2 ≤ (lTokenRows (input.drop (headerEnd input))).length) := by
  intro input
  constructor
  · intro r hr
    rw [plot_3d_point_cloud, viewerBodyParse, loadtxt, hr]
    cases homap : omapM pyFloat r with
    | none => simp [omapM, homap]
    | some vals =>
      have h1 : omapM (fun r2 => omapM pyFloat r2) [r] = some [vals] := by
        simp [omapM, homap]
      rw [h1]
      have h2 : uniformShape [vals] = some (mkNDArr [vals]) := by
        rw [uniformShape_cons]
        simp
      simp only [Option.some_bind, h2, npcol_mkNDArr_single,
        Option.none_bind, Option.bind_eq_bind]
  · intro pts h
    simp only [plot_3d_point_cloud, viewerBodyParse, loadtxt,
      Option.bind_eq_bind, Option.bind_eq_some, Option.pure_def,
      Option.some.injEq] at h
    obtain ⟨points, ⟨rows0, hrows0, hshape⟩, x, hx, -⟩ := h
    cases points with
    | d0 v => simp [npcol] at hx
    | d1 r => simp [npcol] at hx
    | d2 rows =>
      have hlen := omapM_some_length hrows0
      cases rows0 with
      | nil => simp [uniformShape, mkNDArr] at hshape
      | cons r0 rt =>
        rw [uniformShape_cons] at hshape
        split_ifs at hshape with hunif
        injection hshape with hmk
        obtain ⟨-, hlen2⟩ := mkNDArr_d2_inv hmk
        omega

/-- Witness for C10 at a concrete PLY with a single vertex line. -/
theorem viewer_requires_two_rows_witness :
    plot_3d_point_cloud [("ply"), ("format ascii 1.0"), ("element vertex 1"),
        ("property float x"), ("property float y"), ("property float z"),
        ("end_header"), ("1 2 3")] = none :=
  (viewer_requires_two_rows [("ply"), ("format ascii 1.0"),
    ("element vertex 1"), ("property float x"), ("property float y"),
    ("property float z"), ("end_header"), ("1 2 3")]).1
    [("1"), ("2"), ("3")] (by decide)
